import Mathlib

/-!
Shallow embedding of the geometric/topological kernel of `cst-ifc-rs`.

Conventions of the embedding:
* Rust `f64` values are modelled as exact rationals (`ℚ`); the comparisons the
  code performs are order comparisons, which agree with the rational order on
  every finite float.  Square roots (needed only by the surface-normal fallback
  and circle frames) force those few definitions into `ℝ`.
* A `slotmap::SlotMap` with no deletions (none occur in the kernel) is a list:
  keys are insertion indices, `contains_key k` is `k < length`, and iteration
  order is index order.
* Rust `&mut self` methods returning `Result<T>` become functions
  `Mesh → ... → Except MeshErr T × Mesh`; the returned mesh is the state after
  the call, also when the result is an error (Rust mutates in place).
* `CstError` payload strings are elided; only the error kind is kept.
* Arrays indexed in loops (`knots`, control points, weights) are modelled by
  their indexing functions `ℕ → ℚ`; the number of control points minus one
  (`n`), which Rust recovers from `control_points.len()`, is passed explicitly.
-/

/-- Three-component vector, modelling `DVec3` / `Point3` / `Vector3`. -/
structure Vec3 (α : Type) where
  x : α
  y : α
  z : α
deriving DecidableEq

instance {α : Type} [Add α] : Add (Vec3 α) :=
  ⟨fun a b => ⟨a.x + b.x, a.y + b.y, a.z + b.z⟩⟩

instance {α : Type} [Sub α] : Sub (Vec3 α) :=
  ⟨fun a b => ⟨a.x - b.x, a.y - b.y, a.z - b.z⟩⟩

instance {α : Type} [Zero α] : Zero (Vec3 α) :=
  ⟨⟨0, 0, 0⟩⟩

instance {α : Type} [Mul α] : SMul α (Vec3 α) :=
  ⟨fun c v => ⟨c * v.x, c * v.y, c * v.z⟩⟩

/-- Componentwise division by a scalar, modelling `DVec3 / f64`. -/
def Vec3.sdiv {α : Type} [Div α] (v : Vec3 α) (c : α) : Vec3 α :=
  ⟨v.x / c, v.y / c, v.z / c⟩

/-- Dot product, modelling `DVec3::dot`. -/
def Vec3.dot {α : Type} [Mul α] [Add α] (a b : Vec3 α) : α :=
  a.x * b.x + a.y * b.y + a.z * b.z

/-- Cross product, modelling `DVec3::cross`. -/
def Vec3.cross {α : Type} [Mul α] [Sub α] (a b : Vec3 α) : Vec3 α :=
  ⟨a.y * b.z - a.z * b.y, a.z * b.x - a.x * b.z, a.x * b.y - a.y * b.x⟩

/-- Squared euclidean norm; `DVec3::length` is its square root. -/
def Vec3.normSq {α : Type} [Mul α] [Add α] (v : Vec3 α) : α :=
  v.x * v.x + v.y * v.y + v.z * v.z

/-- Cast a rational vector into the reals. -/
def Vec3.toR (v : Vec3 ℚ) : Vec3 ℝ :=
  ⟨(v.x : ℝ), (v.y : ℝ), (v.z : ℝ)⟩

-- ---------------------------------------------------------------------------
-- Half-edge mesh data model (src/crates/cst-topology/src/halfedge/types.rs)
-- ---------------------------------------------------------------------------

abbrev VertexId := Nat
abbrev HalfEdgeId := Nat
abbrev EdgeId := Nat
abbrev LoopId := Nat
abbrev FaceId := Nat

/-- Rust `Vertex`: position plus optional outgoing half-edge. -/
structure Vertex where
  position : Vec3 ℚ
  halfedge : Option HalfEdgeId
deriving DecidableEq

/-- Rust `HalfEdge`: origin vertex and optional twin/next/prev/face/edge/loop. -/
structure HalfEdge where
  origin : VertexId
  twin : Option HalfEdgeId
  next : Option HalfEdgeId
  prev : Option HalfEdgeId
  face : Option FaceId
  edge : Option EdgeId
  loop_id : Option LoopId
deriving DecidableEq

/-- Rust `Edge`: its two half-edges. -/
structure Edge where
  halfedge_a : HalfEdgeId
  halfedge_b : HalfEdgeId
deriving DecidableEq

/-- Rust `Loop`: head half-edge and owning face. -/
structure Loop where
  halfedge : HalfEdgeId
  face : Option FaceId
deriving DecidableEq

/-- Rust `Face`: outer loop, inner loops, orientation flag. -/
structure Face where
  outer_loop : LoopId
  inner_loops : List LoopId
  surface_reversed : Bool
deriving DecidableEq

/-- The five slot-map arenas of `Mesh`. -/
structure Mesh where
  vertices : List Vertex
  halfedges : List HalfEdge
  edges : List Edge
  loops : List Loop
  faces : List Face
deriving DecidableEq

/-- Error kinds of `CstError` relevant to the kernel (payload strings elided). -/
inductive MeshErr where
  | topology
  | notFound
deriving DecidableEq

instance {ε α : Type} [DecidableEq ε] [DecidableEq α] : DecidableEq (Except ε α)
  | .ok a, .ok b =>
    if h : a = b then isTrue (congrArg Except.ok h)
    else isFalse (fun hc => h (Except.ok.inj hc))
  | .ok _, .error _ => isFalse (fun hc => Except.noConfusion hc)
  | .error _, .ok _ => isFalse (fun hc => Except.noConfusion hc)
  | .error a, .error b =>
    if h : a = b then isTrue (congrArg Except.error h)
    else isFalse (fun hc => h (Except.error.inj hc))

/-- In-place update of one list entry (`self.table[id] = ...` on a slot map);
out-of-range indices leave the list unchanged (they never occur in the
kernel's uses). -/
def listModify {α : Type} : List α → ℕ → (α → α) → List α
  | [], _, _ => []
  | a :: l, 0, f => f a :: l
  | a :: l, i + 1, f => a :: listModify l i f

/-- Default used to model direct slot-map indexing at always-valid keys. -/
def defaultHE : HalfEdge :=
  ⟨0, none, none, none, none, none, none⟩

/-- Read a half-edge by id (`self.halfedges[id]`, always in range at use sites). -/
def Mesh.heAt (m : Mesh) (i : HalfEdgeId) : HalfEdge :=
  m.halfedges.getD i defaultHE

/-- Read an edge by id (`self.edges[id]`, always in range at use sites). -/
def Mesh.edgeAt (m : Mesh) (i : EdgeId) : Edge :=
  m.edges.getD i ⟨0, 0⟩

/-- Rust `Mesh::new`. -/
def Mesh.new : Mesh :=
  ⟨[], [], [], [], []⟩

/-- Rust `Mesh::add_vertex`: insert a vertex with no outgoing half-edge. -/
def Mesh.add_vertex (m : Mesh) (p : Vec3 ℚ) : VertexId × Mesh :=
  (m.vertices.length, { m with vertices := m.vertices ++ [⟨p, none⟩] })

/-- Rust `contains_key` on the vertex arena. -/
def Mesh.containsVertex (m : Mesh) (v : VertexId) : Bool :=
  v < m.vertices.length

/-- Rust `Mesh::make_edge`: check both vertices, insert half-edge `a` (no twin),
insert half-edge `b` (twin `a`), patch `a.twin`, insert the edge record,
patch both `edge` fields, then set each vertex's outgoing half-edge only if
it was unset. -/
def Mesh.make_edge (m : Mesh) (v1 v2 : VertexId) : Except MeshErr EdgeId × Mesh :=
  if ¬ (m.containsVertex v1 ∧ m.containsVertex v2) then
    (.error .notFound, m)
  else
    let heA : HalfEdgeId := m.halfedges.length
    let heB : HalfEdgeId := m.halfedges.length + 1
    let hs1 := m.halfedges ++ [⟨v1, none, none, none, none, none, none⟩]
    let hs2 := hs1 ++ [⟨v2, some heA, none, none, none, none, none⟩]
    let hs3 := listModify hs2 heA (fun he => { he with twin := some heB })
    let edgeId : EdgeId := m.edges.length
    let es := m.edges ++ [⟨heA, heB⟩]
    let hs4 := listModify hs3 heA (fun he => { he with edge := some edgeId })
    let hs5 := listModify hs4 heB (fun he => { he with edge := some edgeId })
    let vs1 := listModify m.vertices v1
      (fun vt => if vt.halfedge = none then { vt with halfedge := some heA } else vt)
    let vs2 := listModify vs1 v2
      (fun vt => if vt.halfedge = none then { vt with halfedge := some heB } else vt)
    (.ok edgeId, { m with vertices := vs2, halfedges := hs5, edges := es })

/-- Rust `Mesh::find_halfedge`: first half-edge (in arena order) whose origin is
`origin` and whose twin's origin is `target`. -/
def Mesh.find_halfedge (m : Mesh) (origin target : VertexId) : Option HalfEdgeId :=
  ((m.halfedges.enum.find? (fun p =>
    p.2.origin == origin &&
      (p.2.twin.bind (fun tid => (m.halfedges[tid]?).map HalfEdge.origin))
        == some target)).map Prod.fst)

/-- One iteration of the half-edge resolution loop of `Mesh::make_face` for a
consecutive pair `(v_from, v_to)`: reuse a face-free forward half-edge, else a
face-free twin of a reverse half-edge, else allocate a new edge. -/
def Mesh.resolveSide (m : Mesh) (vFrom vTo : VertexId) : Except MeshErr HalfEdgeId × Mesh :=
  match m.find_halfedge vFrom vTo with
  | some heId =>
    if (m.heAt heId).face.isSome then (.error .topology, m)
    else (.ok heId, m)
  | none =>
    match m.find_halfedge vTo vFrom with
    | some revId =>
      match (m.heAt revId).twin with
      | some twinId =>
        if (m.heAt twinId).face.isSome then (.error .topology, m)
        else (.ok twinId, m)
      | none => (.error .topology, m)
    | none =>
      match m.make_edge vFrom vTo with
      | (.ok eid, m1) => (.ok (m1.edgeAt eid).halfedge_a, m1)
      | (.error e, m1) => (.error e, m1)

/-- The resolution loop of `Mesh::make_face` over all consecutive pairs,
threading the mesh (new edges persist across iterations). -/
def Mesh.resolveLoop (m : Mesh) : List (VertexId × VertexId) → Except MeshErr (List HalfEdgeId) × Mesh
  | [] => (.ok [], m)
  | (vf, vt) :: rest =>
    match m.resolveSide vf vt with
    | (.ok he, m1) =>
      match m1.resolveLoop rest with
      | (.ok hes, m2) => (.ok (he :: hes), m2)
      | (.error e, m2) => (.error e, m2)
    | (.error e, m1) => (.error e, m1)

/-- The consecutive pairs `(vertices[i], vertices[(i+1) % n])` of the face loop. -/
def cyclicPairs (vs : List VertexId) : List (VertexId × VertexId) :=
  vs.zip (vs.drop 1 ++ vs.take 1)

/-- The final linking loop of `Mesh::make_face`: set `next`, `prev`, `face`,
`loop_id` on each resolved half-edge to form the cyclic list. -/
def linkLoop (hs : List HalfEdge) (hes : List HalfEdgeId) (fid : FaceId) (lid : LoopId) : List HalfEdge :=
  (List.range hes.length).foldl
    (fun acc i =>
      listModify acc (hes.getD i 0)
        (fun he =>
          { he with
            next := some (hes.getD ((i + 1) % hes.length) 0)
            prev := some (hes.getD ((hes.length + i - 1) % hes.length) 0)
            face := some fid
            loop_id := some lid }))
    hs

/-- Rust `Mesh::make_face`: reject fewer than 3 vertices (Topology), reject stale
vertices (NotFound), resolve a half-edge per side, then create the loop and
face records and link the cycle. -/
def Mesh.make_face (m : Mesh) (vertices : List VertexId) : Except MeshErr FaceId × Mesh :=
  if vertices.length < 3 then
    (.error .topology, m)
  else if ¬ (vertices.all m.containsVertex) then
    (.error .notFound, m)
  else
    match m.resolveLoop (cyclicPairs vertices) with
    | (.error e, m1) => (.error e, m1)
    | (.ok hes, m1) =>
      let loopId : LoopId := m1.loops.length
      let m2 := { m1 with loops := m1.loops ++ [(⟨hes.headD 0, none⟩ : Loop)] }
      let faceId : FaceId := m2.faces.length
      let m3 := { m2 with faces := m2.faces ++ [(⟨loopId, [], false⟩ : Face)] }
      let m4 := { m3 with loops := listModify m3.loops loopId (fun lp => { lp with face := some faceId }) }
      let m5 := { m4 with halfedges := linkLoop m4.halfedges hes faceId loopId }
      (.ok faceId, m5)

/-- Rust `Mesh::make_triangle`. -/
def Mesh.make_triangle (m : Mesh) (v1 v2 v3 : VertexId) : Except MeshErr FaceId × Mesh :=
  m.make_face [v1, v2, v3]

/-- Rust `Mesh::edge_faces`: the faces of an edge's two half-edges. -/
def Mesh.edge_faces (m : Mesh) (e : EdgeId) : Option FaceId × Option FaceId :=
  match m.edges[e]? with
  | none => (none, none)
  | some ed =>
    ((m.halfedges[ed.halfedge_a]?).bind HalfEdge.face,
     (m.halfedges[ed.halfedge_b]?).bind HalfEdge.face)

-- ---------------------------------------------------------------------------
-- Validation (src/crates/cst-topology/src/halfedge/validate.rs)
-- ---------------------------------------------------------------------------

/-- Check 1 of `validate`: twin symmetry and distinct origins. -/
def Mesh.validateTwins (m : Mesh) : Except MeshErr Unit :=
  m.halfedges.enum.foldlM
    (fun _ p =>
      match p.2.twin with
      | none => Except.ok ()
      | some tid =>
        match m.halfedges[tid]? with
        | none => Except.error MeshErr.topology
        | some tw =>
          if tw.twin ≠ some p.1 then Except.error MeshErr.topology
          else if p.2.origin = tw.origin then Except.error MeshErr.topology
          else Except.ok ())
    ()

/-- The face-loop walk of check 2 of `validate`.  `count` is capped at
`halfedges.len + 1` exactly as in the source; the outer fuel only bounds the
recursion and is chosen large enough that the cap always fires first. -/
def Mesh.faceWalk (m : Mesh) (fid : FaceId) (start : HalfEdgeId) : ℕ → HalfEdgeId → ℕ → Except MeshErr ℕ
  | 0, _, _ => Except.error MeshErr.topology
  | fuel + 1, current, count =>
    match m.halfedges[current]? with
    | none => Except.error MeshErr.topology
    | some he =>
      if he.face ≠ some fid then Except.error MeshErr.topology
      else
        match he.next with
        | none => Except.error MeshErr.topology
        | some nid =>
          match m.halfedges[nid]? with
          | none => Except.error MeshErr.topology
          | some nhe =>
            if nhe.prev ≠ some current then Except.error MeshErr.topology
            else if count + 1 > m.halfedges.length + 1 then Except.error MeshErr.topology
            else if nid = start then Except.ok (count + 1)
            else m.faceWalk fid start fuel nid (count + 1)

/-- Check 2 of `validate`: every face's outer loop closes in ≥ 3 steps with
consistent `face`, `next`, `prev` fields. -/
def Mesh.validateFaces (m : Mesh) : Except MeshErr Unit :=
  m.faces.enum.foldlM
    (fun _ p =>
      match m.loops[p.2.outer_loop]? with
      | none => Except.error MeshErr.topology
      | some lp => do
        let cnt ← m.faceWalk p.1 lp.halfedge (m.halfedges.length + 2) lp.halfedge 0
        if cnt < 3 then Except.error MeshErr.topology else Except.ok ())
    ()

/-- Check 3 of `validate`: each edge's two half-edges are mutual twins. -/
def Mesh.validateEdges (m : Mesh) : Except MeshErr Unit :=
  m.edges.foldlM
    (fun _ ed =>
      match m.halfedges[ed.halfedge_a]?, m.halfedges[ed.halfedge_b]? with
      | some ha, some hb =>
        if ha.twin ≠ some ed.halfedge_b ∨ hb.twin ≠ some ed.halfedge_a then
          Except.error MeshErr.topology
        else Except.ok ()
      | _, _ => Except.error MeshErr.topology)
    ()

/-- Rust `Mesh::validate` (the `Validate` trait implementation). -/
def Mesh.validate (m : Mesh) : Except MeshErr Unit := do
  m.validateTwins
  m.validateFaces
  m.validateEdges

-- ---------------------------------------------------------------------------
-- Concrete meshes used by the concrete claims
-- ---------------------------------------------------------------------------

/-- A fresh mesh with three vertices 0, 1, 2. -/
def meshV3 : Mesh :=
  (((Mesh.new.add_vertex ⟨0, 0, 0⟩).2.add_vertex ⟨1, 0, 0⟩).2.add_vertex ⟨0, 1, 0⟩).2

/-- A fresh mesh with four vertices 0, 1, 2, 3. -/
def meshV4 : Mesh := (meshV3.add_vertex ⟨0, 0, 1⟩).2

/-- First face of the shared-edge scenario. -/
def c1First : Except MeshErr FaceId × Mesh := meshV4.make_face [0, 1, 2]

/-- Second face of the shared-edge scenario, consistent winding. -/
def c1Second : Except MeshErr FaceId × Mesh := c1First.2.make_face [1, 0, 3]

/-- The triangle construction on the fresh three-vertex mesh. -/
def c6Res : Except MeshErr FaceId × Mesh := meshV3.make_triangle 0 1 2

/-- A triangle mesh (vertices 0,1,2, face over them) plus an isolated vertex 3. -/
def meshC2 : Mesh := ((meshV3.make_face [0, 1, 2]).2.add_vertex ⟨0, 0, 1⟩).2

/-- A mesh with a single vertex 0 (handles 1, 2 are stale). -/
def meshV1 : Mesh := (Mesh.new.add_vertex ⟨0, 0, 0⟩).2

/-- Mesh extension relation holding between the state before and after the
half-edge resolution phase of `make_face`: faces and loops untouched, every
pre-existing half-edge record untouched, vertex count untouched (new
half-edges and edges may have been appended). -/
def MeshExt (m m' : Mesh) : Prop :=
  m'.faces = m.faces ∧ m'.loops = m.loops ∧
  m.halfedges.length ≤ m'.halfedges.length ∧
  (∀ i, i < m.halfedges.length → m'.halfedges[i]? = m.halfedges[i]?) ∧
  m'.vertices.length = m.vertices.length

-- ---------------------------------------------------------------------------
-- Knot-vector math (src/crates/cst-geometry/src/nurbs/knot.rs)
-- ---------------------------------------------------------------------------

/-- The binary-search loop of `find_span`:
`while t < knots[mid] || t >= knots[mid+1]` with `high = mid` when
`t < knots[mid]` and `low = mid` otherwise, recomputing `mid = (low+high)/2`.
The fuel only bounds the recursion; `find_span` passes the initial interval
width, which the span lemma shows always suffices to reach the exit. -/
def findSpanLoop (kn : ℕ → ℚ) (t : ℚ) : ℕ → ℕ → ℕ → ℕ
  | 0, low, high => (low + high) / 2
  | fuel + 1, low, high =>
    if t < kn ((low + high) / 2) then findSpanLoop kn t fuel low ((low + high) / 2)
    else if kn ((low + high) / 2 + 1) ≤ t then findSpanLoop kn t fuel ((low + high) / 2) high
    else (low + high) / 2

/-- Rust `find_span(degree, knots, n, t)`: snap to `n` when `t >= knots[n+1]`,
to `degree` when `t <= knots[degree]`, else binary search. -/
def find_span (degree : ℕ) (kn : ℕ → ℚ) (n : ℕ) (t : ℚ) : ℕ :=
  if kn (n + 1) ≤ t then n
  else if t ≤ kn degree then degree
  else findSpanLoop kn t (n + 1 - degree) degree (n + 1)

/-- Rust `left[j] = t - knots[span + 1 - j]`: the `left` scratch array entries of
the basis recurrences, written at pass `j` and only ever read with the value
given by this formula. -/
def bleft (kn : ℕ → ℚ) (span : ℕ) (t : ℚ) (j : ℕ) : ℚ :=
  t - kn (span + 1 - j)

/-- Rust `right[j] = knots[span + j] - t`: the `right` scratch array entries. -/
def bright (kn : ℕ → ℚ) (span : ℕ) (t : ℚ) (j : ℕ) : ℚ :=
  kn (span + j) - t

/-- The inner loop `for r in 0..j` of `basis_functions`, threading the
accumulator array `n` and the `saved` variable; `basisInner kn span t j r st`
is the state after the first `r` iterations of pass `j`. -/
def basisInner (kn : ℕ → ℚ) (span : ℕ) (t : ℚ) (j : ℕ) : ℕ → (ℕ → ℚ) × ℚ → (ℕ → ℚ) × ℚ
  | 0, st => st
  | r + 1, st =>
    let st1 := basisInner kn span t j r st
    let temp := st1.1 r / (bright kn span t (r + 1) + bleft kn span t (j - r))
    (Function.update st1.1 r (st1.2 + bright kn span t (r + 1) * temp),
     bleft kn span t (j - r) * temp)

/-- The outer loop `for j in 1..=degree` of `basis_functions`:
`basisOuter kn span t j` is the `n` array after pass `j`, starting from
`n = [1, 0, 0, ...]` and finishing each pass with `n[j] = saved`. -/
def basisOuter (kn : ℕ → ℚ) (span : ℕ) (t : ℚ) : ℕ → (ℕ → ℚ)
  | 0 => Function.update (fun _ => 0) 0 1
  | j + 1 =>
    let st := basisInner kn span t (j + 1) (j + 1) (basisOuter kn span t j, 0)
    Function.update st.1 (j + 1) st.2

/-- Rust `basis_functions(degree, knots, span, t)`: the `degree + 1` non-vanishing
basis values, as the indexing function of the returned vector. -/
def basis_functions (degree : ℕ) (kn : ℕ → ℚ) (span : ℕ) (t : ℚ) : ℕ → ℚ :=
  basisOuter kn span t degree

-- ---------------------------------------------------------------------------
-- De Boor evaluation (src/crates/cst-geometry/src/nurbs/deboor.rs)
-- ---------------------------------------------------------------------------

/-- Rust `curve_point`: B-spline curve evaluation; the accumulation loop
`point += basis[i] * control_points[span - degree + i]`. -/
def curve_point (degree : ℕ) (kn : ℕ → ℚ) (cps : ℕ → Vec3 ℚ) (n : ℕ) (t : ℚ) : Vec3 ℚ :=
  let span := find_span degree kn n t
  let basis := basis_functions degree kn span t
  (List.range (degree + 1)).foldl
    (fun acc i => acc + basis i • cps (span - degree + i)) 0

/-- The homogeneous accumulation loop of `nurbs_curve_point`: the
unnormalised numerator `point` and the summed weight `w`. -/
def nurbsCurveHomog (degree : ℕ) (kn : ℕ → ℚ) (cps : ℕ → Vec3 ℚ) (wts : ℕ → ℚ) (n : ℕ) (t : ℚ) :
    Vec3 ℚ × ℚ :=
  let span := find_span degree kn n t
  let basis := basis_functions degree kn span t
  (List.range (degree + 1)).foldl
    (fun acc i =>
      let idx := span - degree + i
      let bw := basis i * wts idx
      (acc.1 + bw • cps idx, acc.2 + bw))
    (0, 0)

/-- The `1e-15` degenerate-weight threshold, as an exact rational. -/
def epsW : ℚ := 1e-15

/-- Rust `nurbs_curve_point`: rational curve evaluation with the degenerate-weight
fallback `if w.abs() < 1e-15 { point } else { point / w }`. -/
def nurbs_curve_point (degree : ℕ) (kn : ℕ → ℚ) (cps : ℕ → Vec3 ℚ) (wts : ℕ → ℚ) (n : ℕ) (t : ℚ) :
    Vec3 ℚ :=
  let st := nurbsCurveHomog degree kn cps wts n t
  if |st.2| < epsW then st.1 else st.1.sdiv st.2

-- ---------------------------------------------------------------------------
-- Basis derivatives and NURBS surface evaluation
-- (src/crates/cst-geometry/src/nurbs/knot.rs, deboor.rs)
-- ---------------------------------------------------------------------------

/-- Two-dimensional scratch-table point update (`table[a][b] = v`). -/
def update2 (f : ℕ → ℕ → ℚ) (a b : ℕ) (v : ℚ) : ℕ → ℕ → ℚ :=
  fun x y => if x = a ∧ y = b then v else f x y

/-- The inner loop `for r in 0..j` building the triangular `ndu` table of
`basis_functions_derivs`: writes the lower-triangle denominator `ndu[j][r]`,
then the upper-triangle value `ndu[r][j]`, threading `saved`. -/
def nduInner (kn : ℕ → ℚ) (span : ℕ) (t : ℚ) (j : ℕ) :
    ℕ → (ℕ → ℕ → ℚ) × ℚ → (ℕ → ℕ → ℚ) × ℚ
  | 0, st => st
  | r + 1, st =>
    let st1 := nduInner kn span t j r st
    let ndu1 := update2 st1.1 j r (bright kn span t (r + 1) + bleft kn span t (j - r))
    let temp := ndu1 r (j - 1) / ndu1 j r
    (update2 ndu1 r j (st1.2 + bright kn span t (r + 1) * temp),
     bleft kn span t (j - r) * temp)

/-- The outer loop of the `ndu` table: `ndu[0][0] = 1`, then passes
`j = 1..=p`, each finishing with `ndu[j][j] = saved`. -/
def nduOuter (kn : ℕ → ℚ) (span : ℕ) (t : ℚ) : ℕ → (ℕ → ℕ → ℚ)
  | 0 => update2 (fun _ _ => 0) 0 0 1
  | j + 1 =>
    let st := nduInner kn span t (j + 1) (j + 1) (nduOuter kn span t j, 0)
    update2 st.1 (j + 1) (j + 1) st.2

/-- The first-derivative value of `basis_functions_derivs` for index `r`
(before the final `* degree` factor is applied it accumulates `d`).  The
source keeps a two-row buffer `a` with row indices `s1`/`s2` that are reset
to 0/1 inside every iteration of the `r`-loop (the end-of-iteration swap is
dead); row 0 is never written beyond `a[0][0] = 1`, so each read `a[s1][j]`
is `1` at `j = 0` and `0` otherwise, and each `a[s2][...]` value is written
and read within the same iteration — giving the locals below. -/
def dnVal (kn : ℕ → ℚ) (span : ℕ) (t : ℚ) (p r : ℕ) : ℚ :=
  let ndu := nduOuter kn span t p
  let a0 : ℕ → ℚ := fun j => if j = 0 then 1 else 0
  let rk : ℤ := (r : ℤ) - 1
  let pk : ℤ := (p : ℤ) - 1
  let base : ℚ := if 1 ≤ r then (a0 0 / ndu p (r - 1)) * ndu (r - 1) (p - 1) else 0
  let j1 : ℕ := if 0 ≤ rk then 1 else (-rk).toNat
  let j2 : ℕ := if (r : ℤ) - 1 ≤ pk then p - r else ((p : ℤ) - rk).toNat
  let d := (List.range' j1 (j2 + 1 - j1)).foldl
    (fun d j => d + ((a0 j - a0 (j - 1)) / ndu p (r + j - 1)) * ndu (r + j - 1) (p - 1))
    base
  d * (p : ℚ)

/-- Rust `basis_functions_derivs(degree, knots, span, t)`: the basis values
`ndu[j][degree]` and their first derivatives. -/
def basis_functions_derivs (degree : ℕ) (kn : ℕ → ℚ) (span : ℕ) (t : ℚ) :
    (ℕ → ℚ) × (ℕ → ℚ) :=
  (fun j => nduOuter kn span t degree j degree, fun r => dnVal kn span t degree r)

/-- The homogeneous accumulator of `nurbs_surface_point`. -/
def nurbsSurfHomog (pu pv : ℕ) (knu knv : ℕ → ℚ) (cps : ℕ → ℕ → Vec3 ℚ)
    (wts : ℕ → ℕ → ℚ) (nu nv : ℕ) (u v : ℚ) : Vec3 ℚ × ℚ :=
  let spanU := find_span pu knu nu u
  let basisU := basis_functions pu knu spanU u
  let spanV := find_span pv knv nv v
  let basisV := basis_functions pv knv spanV v
  (List.range (pu + 1)).foldl
    (fun acc i =>
      (List.range (pv + 1)).foldl
        (fun acc j =>
          let ui := spanU - pu + i
          let vj := spanV - pv + j
          let bw := basisU i * basisV j * wts ui vj
          (acc.1 + bw • cps ui vj, acc.2 + bw))
        acc)
    (0, 0)

/-- Rust `nurbs_surface_point` with its degenerate-weight fallback. -/
def nurbs_surface_point (pu pv : ℕ) (knu knv : ℕ → ℚ) (cps : ℕ → ℕ → Vec3 ℚ)
    (wts : ℕ → ℕ → ℚ) (nu nv : ℕ) (u v : ℚ) : Vec3 ℚ :=
  let st := nurbsSurfHomog pu pv knu knv cps wts nu nv u v
  if |st.2| < epsW then st.1 else st.1.sdiv st.2

/-- The six accumulators of `nurbs_surface_normal`:
`(a, da_u, da_v, w, dw_u, dw_v)`. -/
def nurbsSurfDerivState (pu pv : ℕ) (knu knv : ℕ → ℚ) (cps : ℕ → ℕ → Vec3 ℚ)
    (wts : ℕ → ℕ → ℚ) (nu nv : ℕ) (u v : ℚ) :
    Vec3 ℚ × Vec3 ℚ × Vec3 ℚ × ℚ × ℚ × ℚ :=
  let spanU := find_span pu knu nu u
  let bdU := basis_functions_derivs pu knu spanU u
  let spanV := find_span pv knv nv v
  let bdV := basis_functions_derivs pv knv spanV v
  (List.range (pu + 1)).foldl
    (fun acc i =>
      (List.range (pv + 1)).foldl
        (fun acc j =>
          let ui := spanU - pu + i
          let vj := spanV - pv + j
          let cp := cps ui vj
          let wt := wts ui vj
          let buv := bdU.1 i * bdV.1 j * wt
          let dbu := bdU.2 i * bdV.1 j * wt
          let dbv := bdU.1 i * bdV.2 j * wt
          (acc.1 + buv • cp, acc.2.1 + dbu • cp, acc.2.2.1 + dbv • cp,
           acc.2.2.2.1 + buv, acc.2.2.2.2.1 + dbu, acc.2.2.2.2.2 + dbv))
        acc)
    (0, 0, 0, 0, 0, 0)

/-- The cross product `du × dv` of the quotient-rule partial derivatives of
`nurbs_surface_normal` (used after the weight guard passes). -/
def nurbsSurfCross (pu pv : ℕ) (knu knv : ℕ → ℚ) (cps : ℕ → ℕ → Vec3 ℚ)
    (wts : ℕ → ℕ → ℚ) (nu nv : ℕ) (u v : ℚ) : Vec3 ℚ :=
  match nurbsSurfDerivState pu pv knu knv cps wts nu nv u v with
  | (a, dau, dav, w, dwu, dwv) =>
    let c := a.sdiv w
    let du := (dau - dwu • c).sdiv w
    let dv := (dav - dwv • c).sdiv w
    Vec3.cross du dv

/-- Unit Z, the documented degenerate fallback of `nurbs_surface_normal`. -/
def vecZR : Vec3 ℝ := ⟨0, 0, 1⟩

/-- Rust `nurbs_surface_normal`: returns unit Z when the summed weight magnitude
is below `1e-15`; otherwise normalises the cross product of the partial
derivatives, returning unit Z when its length is below `1e-15`.  The length
(square root) and the final division are real-valued. -/
noncomputable def nurbs_surface_normal (pu pv : ℕ) (knu knv : ℕ → ℚ)
    (cps : ℕ → ℕ → Vec3 ℚ) (wts : ℕ → ℕ → ℚ) (nu nv : ℕ) (u v : ℚ) : Vec3 ℝ :=
  match nurbsSurfDerivState pu pv knu knv cps wts nu nv u v with
  | (_, _, _, w, _, _) =>
    if |w| < epsW then vecZR
    else
      let normal := nurbsSurfCross pu pv knu knv cps wts nu nv u v
      let len : ℝ := Real.sqrt ((normal.normSq : ℚ) : ℝ)
      if len < 1e-15 then vecZR
      else ⟨(normal.x : ℝ) / len, (normal.y : ℝ) / len, (normal.z : ℝ) / len⟩

-- ---------------------------------------------------------------------------
-- Circle (src/crates/cst-geometry/src/curve/circle.rs)
-- ---------------------------------------------------------------------------

namespace CstCurve

/-- Rust `Circle`: center, (unit) normal, radius.  `Circle::new` stores the
normalised input normal.  (Namespaced: Mathlib already has a `Circle`.) -/
structure Circle where
  center : Vec3 ℝ
  normal : Vec3 ℝ
  radius : ℝ

/-- The reference-axis choice inside `Circle::local_frame`:
`let ref_vec = if n.x.abs() < 0.9 { DVec3::X } else { DVec3::Y }`. -/
noncomputable def circleRefVec (n : Vec3 ℝ) : Vec3 ℝ :=
  if |n.x| < 9 / 10 then ⟨1, 0, 0⟩ else ⟨0, 1, 0⟩

/-- Rust `DVec3::normalize`: division by the length. -/
noncomputable def vnormalize (v : Vec3 ℝ) : Vec3 ℝ :=
  v.sdiv (Real.sqrt v.normSq)

/-- Rust `Circle::local_frame`: `u = n × ref_vec` normalised,
`v = n × u` normalised. -/
noncomputable def Circle.local_frame (c : Circle) : Vec3 ℝ × Vec3 ℝ :=
  let n := c.normal
  let u := vnormalize (Vec3.cross n (circleRefVec n))
  let v := vnormalize (Vec3.cross n u)
  (u, v)

/-- Rust `Circle::point_at`: `center + radius * (cos t * u + sin t * v)`. -/
noncomputable def Circle.point_at (c : Circle) (t : ℝ) : Vec3 ℝ :=
  c.center + c.radius • (Real.cos t • c.local_frame.1 + Real.sin t • c.local_frame.2)

/-- The unit normal `(3/5, 0, 4/5)` of the C9 counterexample circle. -/
noncomputable def cxCircle : Circle :=
  ⟨⟨0, 0, 0⟩, ⟨3/5, 0, 4/5⟩, 1⟩

end CstCurve

-- ---------------------------------------------------------------------------
-- Concrete numeric inputs used by counterexamples and witnesses
-- ---------------------------------------------------------------------------

/-- The knot vector `[0, 0, 0, 1, 1]` (as its indexing function). -/
def kcx : ℕ → ℚ := fun i => if i < 3 then 0 else 1

/-- The clamped degree-1 knot vector `[0, 0, 1, 1]` (as its indexing function). -/
def kw : ℕ → ℚ := fun i => if i < 2 then 0 else 1

/-- Control points `[(0,0,0), (1,0,0)]` (as their indexing function). -/
def cpsLin : ℕ → Vec3 ℚ := fun i => if i = 0 then ⟨0, 0, 0⟩ else ⟨1, 0, 0⟩

/-- A constant weight far below the `1e-15` degenerate threshold but strictly
positive (`2⁻⁶⁰`, exactly representable in `f64`). -/
def wtsTiny : ℕ → ℚ := fun _ => 1 / 2 ^ 60

/-- The knot vector `[0, 1]` of the degree-0 witnesses. -/
def k01 : ℕ → ℚ := fun i => if i = 0 then 0 else 1

/-- A constant 1×1 control grid. -/
def cp2 : ℕ → ℕ → Vec3 ℚ := fun _ _ => ⟨2, 3, 4⟩

-- ---------------------------------------------------------------------------
-- List lemmas about `listModify`
-- ---------------------------------------------------------------------------

theorem listModify_length {α : Type} (l : List α) (i : ℕ) (f : α → α) :
    (listModify l i f).length = l.length := by
  induction l generalizing i with
  | nil => rfl
  | cons a t ih =>
    cases i with
    | zero => rfl
    | succ j => simp [listModify, ih]

theorem listModify_append_right {α : Type} (l l' : List α) (k : ℕ) (f : α → α) :
    listModify (l ++ l') (l.length + k) f = l ++ listModify l' k f := by
  induction l with
  | nil => simp
  | cons a t ih =>
    have h : t.length + 1 + k = (t.length + k) + 1 := by omega
    simp only [List.cons_append, List.length_cons, h, listModify, ih]

theorem getElem?_listModify {α : Type} (l : List α) (i : ℕ) (f : α → α) (j : ℕ) :
    (listModify l i f)[j]? = if i = j then (l[j]?).map f else l[j]? := by
  induction l generalizing i j with
  | nil => simp [listModify]
  | cons a t ih =>
    cases i with
    | zero =>
      cases j with
      | zero => simp [listModify]
      | succ j' => simp [listModify]
    | succ i' =>
      cases j with
      | zero => simp [listModify]
      | succ j' => simpa [listModify] using ih i' j'

-- ---------------------------------------------------------------------------
-- C1 and C6: concrete constructions
-- ---------------------------------------------------------------------------

/-- C1: on a fresh four-vertex mesh, `make_face [v0,v1,v2]` then
`make_face [v1,v0,v3]` both succeed, the mesh then has exactly 5 edges (the
shared edge is reused), and exactly one edge reports two distinct owning
faces through `edge_faces`. -/
theorem c1_shared_edge_reused :
    c1First.1 = Except.ok 0 ∧ c1Second.1 = Except.ok 1 ∧
    c1Second.2.edges.length = 5 ∧
    (List.range c1Second.2.edges.length).countP
      (fun e =>
        match c1Second.2.edge_faces e with
        | (some a, some b) => a != b
        | _ => false) = 1 := by
  decide

/-- C6: `make_triangle` on a fresh three-vertex mesh succeeds and leaves
exactly 3 vertices, 3 edges, 6 half-edges, 1 face, and `validate` succeeds. -/
theorem c6_triangle_valid :
    c6Res.1 = Except.ok 0 ∧
    c6Res.2.vertices.length = 3 ∧ c6Res.2.edges.length = 3 ∧
    c6Res.2.halfedges.length = 6 ∧ c6Res.2.faces.length = 1 ∧
    c6Res.2.validate = Except.ok () := by
  decide

theorem listModify_append2_left {α : Type} (l : List α) (a b : α) (f : α → α) :
    listModify (l ++ [a, b]) l.length f = l ++ [f a, b] := by
  have h := listModify_append_right l [a, b] 0 f
  simpa [listModify] using h

theorem listModify_append2_right {α : Type} (l : List α) (a b : α) (f : α → α) :
    listModify (l ++ [a, b]) (l.length + 1) f = l ++ [a, f b] := by
  have h := listModify_append_right l [a, b] 1 f
  simpa [listModify] using h

-- ---------------------------------------------------------------------------
-- Characterisation of `make_edge` on valid handles
-- ---------------------------------------------------------------------------

theorem make_edge_eq (m : Mesh) (v1 v2 : VertexId)
    (h1 : v1 < m.vertices.length) (h2 : v2 < m.vertices.length) :
    m.make_edge v1 v2 =
      (Except.ok m.edges.length,
       { m with
         vertices := listModify
           (listModify m.vertices v1
             (fun vt => if vt.halfedge = none then { vt with halfedge := some m.halfedges.length } else vt))
           v2
           (fun vt => if vt.halfedge = none then { vt with halfedge := some (m.halfedges.length + 1) } else vt),
         halfedges := m.halfedges ++
           [⟨v1, some (m.halfedges.length + 1), none, none, none, some m.edges.length, none⟩,
            ⟨v2, some m.halfedges.length, none, none, none, some m.edges.length, none⟩],
         edges := m.edges ++ [⟨m.halfedges.length, m.halfedges.length + 1⟩] }) := by
  have hc : ¬ ¬ (m.containsVertex v1 = true ∧ m.containsVertex v2 = true) := by
    simp [Mesh.containsVertex, h1, h2]
  simp only [Mesh.make_edge, hc, if_false, List.append_assoc, List.cons_append,
    List.nil_append, listModify_append2_left, listModify_append2_right]

/-- C10: for valid vertex handles, `make_edge` unconditionally allocates one
new edge record and two new mutually-twinned half-edges (no search for an
existing edge between the two vertices is performed, so repeated calls stack
parallel duplicate edges), and a vertex's outgoing half-edge reference is
written only when it was previously unset. -/
theorem c10_make_edge_always_allocates (m : Mesh) (v1 v2 : VertexId)
    (h1 : v1 < m.vertices.length) (h2 : v2 < m.vertices.length) :
    (m.make_edge v1 v2).1 = Except.ok m.edges.length ∧
    (m.make_edge v1 v2).2.edges = m.edges ++ [⟨m.halfedges.length, m.halfedges.length + 1⟩] ∧
    (m.make_edge v1 v2).2.halfedges = m.halfedges ++
      [⟨v1, some (m.halfedges.length + 1), none, none, none, some m.edges.length, none⟩,
       ⟨v2, some m.halfedges.length, none, none, none, some m.edges.length, none⟩] ∧
    (∀ (v : VertexId), v ≠ v1 → v ≠ v2 → (m.make_edge v1 v2).2.vertices[v]? = m.vertices[v]?) ∧
    (∀ (v : VertexId) (he : HalfEdgeId), (m.vertices[v]?).bind Vertex.halfedge = some he →
      ((m.make_edge v1 v2).2.vertices[v]?).bind Vertex.halfedge = some he) ∧
    ((m.vertices[v1]?).bind Vertex.halfedge = none →
      ((m.make_edge v1 v2).2.vertices[v1]?).bind Vertex.halfedge = some m.halfedges.length) ∧
    (v2 ≠ v1 → (m.vertices[v2]?).bind Vertex.halfedge = none →
      ((m.make_edge v1 v2).2.vertices[v2]?).bind Vertex.halfedge = some (m.halfedges.length + 1)) := by
  rw [make_edge_eq m v1 v2 h1 h2]
  refine ⟨rfl, rfl, rfl, ?_, ?_, ?_, ?_⟩
  · intro v hv1 hv2
    simp [getElem?_listModify, Ne.symm hv1, Ne.symm hv2]
  · intro v he hv
    obtain ⟨vt, hvt, hh⟩ := Option.bind_eq_some.mp hv
    by_cases e2 : v2 = v <;> by_cases e1 : v1 = v <;>
      simp [getElem?_listModify, e1, e2, hvt, hh]
  · intro hv
    have hvt : m.vertices[v1]? = some m.vertices[v1] := List.getElem?_eq_getElem h1
    rw [hvt] at hv
    have hnone : (m.vertices[v1]).halfedge = none := by simpa using hv
    by_cases e2 : v2 = v1 <;> simp [getElem?_listModify, e2, hvt, hnone]
  · intro hne hv
    have hvt : m.vertices[v2]? = some m.vertices[v2] := List.getElem?_eq_getElem h2
    rw [hvt] at hv
    have hnone : (m.vertices[v2]).halfedge = none := by simpa using hv
    simp [getElem?_listModify, Ne.symm hne, hvt, hnone]

/-- Witness for C10 at a concrete mesh with three vertices. -/
theorem c10_make_edge_always_allocates_witness :
    (meshV3.make_edge 0 1).1 = Except.ok meshV3.edges.length ∧
    (meshV3.make_edge 0 1).2.edges =
      meshV3.edges ++ [⟨meshV3.halfedges.length, meshV3.halfedges.length + 1⟩] :=
  ⟨(c10_make_edge_always_allocates meshV3 0 1 (by decide) (by decide)).1,
   (c10_make_edge_always_allocates meshV3 0 1 (by decide) (by decide)).2.1⟩

-- ---------------------------------------------------------------------------
-- The resolution phase of `make_face` never touches loops, faces, or
-- pre-existing half-edges
-- ---------------------------------------------------------------------------

theorem meshExt_refl (m : Mesh) : MeshExt m m :=
  ⟨rfl, rfl, le_refl _, fun _ _ => rfl, rfl⟩

theorem meshExt_trans {m1 m2 m3 : Mesh} (h12 : MeshExt m1 m2) (h23 : MeshExt m2 m3) :
    MeshExt m1 m3 := by
  obtain ⟨f12, l12, n12, p12, v12⟩ := h12
  obtain ⟨f23, l23, n23, p23, v23⟩ := h23
  exact ⟨f23.trans f12, l23.trans l12, n12.trans n23,
    fun i hi => (p23 i (lt_of_lt_of_le hi n12)).trans (p12 i hi), v23.trans v12⟩

theorem make_edge_ext (m : Mesh) (v1 v2 : VertexId) : MeshExt m (m.make_edge v1 v2).2 := by
  by_cases h : v1 < m.vertices.length ∧ v2 < m.vertices.length
  · rw [make_edge_eq m v1 v2 h.1 h.2]
    refine ⟨rfl, rfl, by simp, ?_, by simp [listModify_length]⟩
    intro i hi
    simp [List.getElem?_append, hi]
  · have hc : ¬ (m.containsVertex v1 = true ∧ m.containsVertex v2 = true) := by
      simpa [Mesh.containsVertex] using h
    unfold Mesh.make_edge
    rw [if_pos hc]
    exact meshExt_refl m

theorem resolveSide_ext (m : Mesh) (a b : VertexId) : MeshExt m (m.resolveSide a b).2 := by
  unfold Mesh.resolveSide
  rcases h1 : m.find_halfedge a b with _ | heId
  · rcases h2 : m.find_halfedge b a with _ | revId
    · rcases h3 : m.make_edge a b with ⟨r, m1⟩
      have hext : MeshExt m m1 := by
        have hh := make_edge_ext m a b
        rw [h3] at hh
        exact hh
      simp only [h1, h2, h3]
      cases r <;> exact hext
    · simp only [h1, h2]
      rcases ht : (m.heAt revId).twin with _ | twinId
      · simp only [ht]
        exact meshExt_refl m
      · simp only [ht]
        by_cases hf : (m.heAt twinId).face.isSome
        · rw [if_pos hf]
          exact meshExt_refl m
        · rw [if_neg hf]
          exact meshExt_refl m
  · simp only [h1]
    by_cases hf : (m.heAt heId).face.isSome
    · rw [if_pos hf]
      exact meshExt_refl m
    · rw [if_neg hf]
      exact meshExt_refl m

theorem resolveLoop_ext (pairs : List (VertexId × VertexId)) (m : Mesh) :
    MeshExt m (m.resolveLoop pairs).2 := by
  induction pairs generalizing m with
  | nil => exact meshExt_refl m
  | cons p rest ih =>
    obtain ⟨vf, vt⟩ := p
    show MeshExt m (Mesh.resolveLoop m ((vf, vt) :: rest)).2
    rcases hs : m.resolveSide vf vt with ⟨r, m1⟩
    have hext1 : MeshExt m m1 := by
      have hh := resolveSide_ext m vf vt
      rw [hs] at hh
      exact hh
    simp only [Mesh.resolveLoop, hs]
    cases r with
    | error e => exact hext1
    | ok he =>
      rcases hl : m1.resolveLoop rest with ⟨r2, m2⟩
      have hext2 : MeshExt m1 m2 := by
        have hh := ih m1
        rw [hl] at hh
        exact hh
      simp only [hl]
      cases r2 <;> exact meshExt_trans hext1 hext2

/-- C2 counterexample: on a triangle mesh plus an isolated vertex, the call
`make_face [3, 0, 1]` fails (side `(0,1)` is already owned by the first face)
after its first side `(3,0)` has already allocated a brand-new edge, so the
failed call leaves one more edge (and two more half-edges) in the mesh. -/
theorem c2_counterexample :
    (meshC2.make_face [3, 0, 1]).1 = Except.error MeshErr.topology ∧
    meshC2.edges.length = 3 ∧
    (meshC2.make_face [3, 0, 1]).2.edges.length = 4 ∧
    meshC2.halfedges.length = 6 ∧
    (meshC2.make_face [3, 0, 1]).2.halfedges.length = 8 := by
  decide

/-- C2 (amended): whenever `make_face` returns an error, no face or loop
record has been created and no pre-existing half-edge record (its
`next`/`prev`/`face`/`loop` fields included) has been modified; however,
edges and half-edges allocated for earlier sides of the loop persist in the
mesh. -/
theorem c2_make_face_error_no_linkage (m : Mesh) (vs : List VertexId) (e : MeshErr)
    (h : (m.make_face vs).1 = Except.error e) :
    (m.make_face vs).2.faces = m.faces ∧
    (m.make_face vs).2.loops = m.loops ∧
    m.halfedges.length ≤ (m.make_face vs).2.halfedges.length ∧
    (∀ i, i < m.halfedges.length → (m.make_face vs).2.halfedges[i]? = m.halfedges[i]?) ∧
    (m.make_face vs).2.vertices.length = m.vertices.length := by
  by_cases hn : vs.length < 3
  · have hm : m.make_face vs = (Except.error MeshErr.topology, m) := by
      unfold Mesh.make_face
      rw [if_pos hn]
    rw [hm]
    exact ⟨rfl, rfl, le_refl _, fun _ _ => rfl, rfl⟩
  · by_cases ha : vs.all m.containsVertex
    · rcases hr : m.resolveLoop (cyclicPairs vs) with ⟨r, m1⟩
      have hext : MeshExt m m1 := by
        have hh := resolveLoop_ext (cyclicPairs vs) m
        rw [hr] at hh
        exact hh
      cases r with
      | ok hes =>
        have hm : (m.make_face vs).1 = Except.ok m1.faces.length := by
          unfold Mesh.make_face
          rw [if_neg hn, if_neg (by simp [ha]), hr]
        rw [hm] at h
        exact absurd h (by simp)
      | error e2 =>
        have hm : m.make_face vs = (Except.error e2, m1) := by
          unfold Mesh.make_face
          rw [if_neg hn, if_neg (by simp [ha]), hr]
        rw [hm]
        exact hext
    · have hm : m.make_face vs = (Except.error MeshErr.notFound, m) := by
        unfold Mesh.make_face
        rw [if_neg hn, if_pos (by simp [ha])]
      rw [hm]
      exact ⟨rfl, rfl, le_refl _, fun _ _ => rfl, rfl⟩

/-- Witness for the amended C2 at the concrete failing call of the
counterexample. -/
theorem c2_make_face_error_no_linkage_witness :
    (meshC2.make_face [3, 0, 1]).2.faces = meshC2.faces ∧
    (meshC2.make_face [3, 0, 1]).2.loops = meshC2.loops ∧
    (meshC2.make_face [3, 0, 1]).2.halfedges[0]? = meshC2.halfedges[0]? :=
  ⟨(c2_make_face_error_no_linkage meshC2 [3, 0, 1] MeshErr.topology (by decide)).1,
   (c2_make_face_error_no_linkage meshC2 [3, 0, 1] MeshErr.topology (by decide)).2.1,
   (c2_make_face_error_no_linkage meshC2 [3, 0, 1] MeshErr.topology (by decide)).2.2.2.1 0 (by decide)⟩

/-- C7 counterexample: `make_face` with a stale vertex handle returns a
NotFound error, not a Topology error. -/
theorem c7_counterexample :
    (meshV1.make_face [0, 1, 2]).1 = Except.error MeshErr.notFound ∧
    ¬ (meshV1.make_face [0, 1, 2]).1 = Except.error MeshErr.topology := by
  decide

/-- C7 (amended): `make_face` with fewer than 3 vertices fails with a
Topology error; `make_face` with at least 3 vertices one of which is a stale
handle fails with a NotFound error.  Both failures leave the mesh unchanged
(the checks precede any mutation). -/
theorem c7_make_face_error_conditions (m : Mesh) (vs : List VertexId) :
    (vs.length < 3 → m.make_face vs = (Except.error MeshErr.topology, m)) ∧
    (3 ≤ vs.length → (∃ v ∈ vs, m.vertices.length ≤ v) →
      m.make_face vs = (Except.error MeshErr.notFound, m)) := by
  constructor
  · intro hn
    unfold Mesh.make_face
    rw [if_pos hn]
  · intro h3 hstale
    obtain ⟨v, hv, hs⟩ := hstale
    have hn : ¬ vs.length < 3 := by omega
    have ha : ¬ (vs.all m.containsVertex = true) := by
      intro hall
      rw [List.all_eq_true] at hall
      have hvc := hall v hv
      simp only [Mesh.containsVertex, decide_eq_true_eq] at hvc
      exact absurd (Nat.lt_of_le_of_lt hs hvc) (Nat.lt_irrefl _)
    unfold Mesh.make_face
    rw [if_neg hn, if_pos (by simpa using ha)]

/-- Witness for the amended C7: a two-vertex list gives Topology, a stale
handle gives NotFound, on a concrete one-vertex mesh. -/
theorem c7_make_face_error_conditions_witness :
    meshV1.make_face [0, 1] = (Except.error MeshErr.topology, meshV1) ∧
    meshV1.make_face [0, 1, 2] = (Except.error MeshErr.notFound, meshV1) :=
  ⟨(c7_make_face_error_conditions meshV1 [0, 1]).1 (by decide),
   (c7_make_face_error_conditions meshV1 [0, 1, 2]).2 (by decide)
     ⟨1, by decide, by decide⟩⟩

-- ---------------------------------------------------------------------------
-- Correctness of `find_span`
-- ---------------------------------------------------------------------------

theorem findSpanLoop_spec (kn : ℕ → ℚ) (t : ℚ) (hm : Monotone kn) :
    ∀ (fuel low high : ℕ), low < high → kn low ≤ t → t < kn high → high - low ≤ fuel →
      low ≤ findSpanLoop kn t fuel low high ∧ findSpanLoop kn t fuel low high < high ∧
      kn (findSpanLoop kn t fuel low high) ≤ t ∧ t < kn (findSpanLoop kn t fuel low high + 1) := by
  intro fuel
  induction fuel with
  | zero =>
    intro low high h1 _ _ h4
    exact absurd h1 (by omega)
  | succ f ih =>
    intro low high hlh hlo hhi hfuel
    simp only [findSpanLoop]
    by_cases hc1 : t < kn ((low + high) / 2)
    · rw [if_pos hc1]
      have hmlow : low < (low + high) / 2 := by
        have hle : low ≤ (low + high) / 2 := by omega
        rcases eq_or_lt_of_le hle with heq | hlt
        · exact absurd hlo (not_le.mpr (heq ▸ hc1))
        · exact hlt
      obtain ⟨ha, hb, hc, hd⟩ := ih low ((low + high) / 2) hmlow hlo hc1 (by omega)
      exact ⟨ha, by omega, hc, hd⟩
    · rw [if_neg hc1]
      by_cases hc2 : kn ((low + high) / 2 + 1) ≤ t
      · rw [if_pos hc2]
        have hmlow : low < (low + high) / 2 := by
          rcases Nat.lt_or_ge (low + 1) high with h | h
          · omega
          · exfalso
            have hhe : high = low + 1 := by omega
            have hmid : (low + high) / 2 = low := by omega
            rw [hmid, ← hhe] at hc2
            exact absurd hhi (not_lt.mpr hc2)
        have hmhigh : (low + high) / 2 < high := by omega
        obtain ⟨ha, hb, hc, hd⟩ := ih ((low + high) / 2) high hmhigh (not_lt.mp hc1) hhi (by omega)
        exact ⟨by omega, hb, hc, hd⟩
      · rw [if_neg hc2]
        exact ⟨by omega, by omega, not_lt.mp hc1, not_le.mp hc2⟩

theorem find_span_props (degree n : ℕ) (kn : ℕ → ℚ) (t : ℚ)
    (hm : Monotone kn) (hlt : kn degree < kn (n + 1))
    (hd1 : kn degree < kn (degree + 1))
    (hts : kn degree ≤ t) (hte : t ≤ kn (n + 1)) :
    degree ≤ find_span degree kn n t ∧ find_span degree kn n t ≤ n ∧
    kn (find_span degree kn n t) ≤ t ∧
    (t < kn (n + 1) → t < kn (find_span degree kn n t + 1)) ∧
    (t ≤ kn degree → find_span degree kn n t = degree) ∧
    (kn (n + 1) ≤ t → find_span degree kn n t = n) := by
  have hdn : degree ≤ n := by
    by_contra h
    push_neg at h
    exact absurd (hm (by omega : n + 1 ≤ degree)) (not_le.mpr hlt)
  unfold find_span
  by_cases h1 : kn (n + 1) ≤ t
  · rw [if_pos h1]
    refine ⟨hdn, le_refl n, le_trans (hm (by omega : n ≤ n + 1)) h1, ?_, ?_, fun _ => rfl⟩
    · intro hlt2
      exact absurd hlt2 (not_lt.mpr h1)
    · intro hle2
      exact absurd (lt_of_lt_of_le hlt (le_trans h1 hle2)) (lt_irrefl _)
  · rw [if_neg h1]
    by_cases h2 : t ≤ kn degree
    · rw [if_pos h2]
      have hteq : t = kn degree := le_antisymm h2 hts
      exact ⟨le_refl _, hdn, hts, fun _ => hteq ▸ hd1, fun _ => rfl,
        fun hge => absurd hge h1⟩
    · rw [if_neg h2]
      have hhigh : t < kn (n + 1) := not_le.mp h1
      have hlow : kn degree < t := not_le.mp h2
      obtain ⟨ha, hb, hc, hd⟩ := findSpanLoop_spec kn t hm (n + 1 - degree) degree (n + 1)
        (by omega) (le_of_lt hlow) hhigh (le_refl _)
      exact ⟨ha, by omega, hc, fun _ => hd, fun hle => absurd hlow (not_lt.mpr hle),
        fun hge => absurd hge h1⟩

theorem kw_mono : Monotone kw := by
  intro i j hij
  unfold kw
  by_cases hi : i < 2 <;> by_cases hj : j < 2
  · simp [hi, hj]
  · simp only [if_pos hi, if_neg hj]
    norm_num
  · exact absurd hij (by omega)
  · simp [hi, hj]

theorem kcx_mono : Monotone kcx := by
  intro i j hij
  unfold kcx
  by_cases hi : i < 3 <;> by_cases hj : j < 3
  · simp [hi, hj]
  · simp only [if_pos hi, if_neg hj]
    norm_num
  · exact absurd hij (by omega)
  · simp [hi, hj]

/-- C3 counterexample: for the non-decreasing knot vector `[0,0,0,1,1]`
(degree 1, n = 2) with `knots[1] = 0 < 1 = knots[3]` and `t = 0` inside the
required range, `find_span` returns 1 while `t < knots[3]`, yet
`t < knots[i+1]` fails because `knots[2] = 0 = t`. -/
theorem c3_counterexample :
    Monotone kcx ∧ kcx 1 < kcx 3 ∧ kcx 1 ≤ 0 ∧ (0 : ℚ) ≤ kcx 3 ∧
    (0 : ℚ) < kcx 3 ∧
    find_span 1 kcx 2 0 = 1 ∧
    ¬ ((0 : ℚ) < kcx (find_span 1 kcx 2 0 + 1)) :=
  ⟨kcx_mono, by decide, by decide, by decide, by decide, by decide, by decide⟩

/-- C3 (amended): for a non-decreasing knot vector with
`knots[degree] < knots[n+1]` and additionally a non-degenerate first span
`knots[degree] < knots[degree+1]`, and `knots[degree] ≤ t ≤ knots[n+1]`,
`find_span` returns an index `i` with `degree ≤ i ≤ n`, `knots[i] ≤ t`,
`t < knots[i+1]` whenever `t < knots[n+1]`, and snaps to `degree` when
`t ≤ knots[degree]` and to `n` when `knots[n+1] ≤ t`. -/
theorem c3_find_span_range (degree n : ℕ) (kn : ℕ → ℚ) (t : ℚ)
    (hm : Monotone kn) (hlt : kn degree < kn (n + 1))
    (hd1 : kn degree < kn (degree + 1))
    (hts : kn degree ≤ t) (hte : t ≤ kn (n + 1)) :
    degree ≤ find_span degree kn n t ∧ find_span degree kn n t ≤ n ∧
    kn (find_span degree kn n t) ≤ t ∧
    (t < kn (n + 1) → t < kn (find_span degree kn n t + 1)) ∧
    (t ≤ kn degree → find_span degree kn n t = degree) ∧
    (kn (n + 1) ≤ t → find_span degree kn n t = n) :=
  find_span_props degree n kn t hm hlt hd1 hts hte

/-- Witness for the amended C3 on the clamped knot vector `[0,0,1,1]`,
degree 1, `t = 1/2`. -/
theorem c3_find_span_range_witness :
    1 ≤ find_span 1 kw 1 (1/2) ∧ find_span 1 kw 1 (1/2) ≤ 1 ∧
    kw (find_span 1 kw 1 (1/2)) ≤ 1/2 ∧
    (1/2 : ℚ) < kw (find_span 1 kw 1 (1/2) + 1) :=
  have h := c3_find_span_range 1 1 kw (1/2) kw_mono (by norm_num [kw]) (by norm_num [kw])
    (by norm_num [kw]) (by norm_num [kw])
  ⟨h.1, h.2.1, h.2.2.1, h.2.2.2.1 (by norm_num [kw])⟩

-- ---------------------------------------------------------------------------
-- Partition of unity and non-negativity of `basis_functions`
-- ---------------------------------------------------------------------------

theorem basis_denom_pos (kn : ℕ → ℚ) (span : ℕ) (t : ℚ) (j r : ℕ)
    (hm : Monotone kn) (hr : r < j) (hspan : kn span < kn (span + 1)) :
    0 < bright kn span t (r + 1) + bleft kn span t (j - r) := by
  unfold bright bleft
  have h1 : kn (span + 1 - (j - r)) ≤ kn span := hm (by omega)
  have h2 : kn (span + 1) ≤ kn (span + (r + 1)) := hm (by omega)
  linarith

theorem bright_nonneg (kn : ℕ → ℚ) (span : ℕ) (t : ℚ) (i : ℕ)
    (hm : Monotone kn) (hi : 1 ≤ i) (hthi : t ≤ kn (span + 1)) :
    0 ≤ bright kn span t i := by
  unfold bright
  have h := hm (by omega : span + 1 ≤ span + i)
  linarith

theorem bleft_nonneg (kn : ℕ → ℚ) (span : ℕ) (t : ℚ) (i : ℕ)
    (hm : Monotone kn) (hi : 1 ≤ i) (htlo : kn span ≤ t) :
    0 ≤ bleft kn span t i := by
  unfold bleft
  have h := hm (by omega : span + 1 - i ≤ span)
  linarith

theorem basisInner_succ (kn : ℕ → ℚ) (span : ℕ) (t : ℚ) (j r : ℕ) (st0 : (ℕ → ℚ) × ℚ) :
    basisInner kn span t j (r + 1) st0 =
      (Function.update (basisInner kn span t j r st0).1 r
         ((basisInner kn span t j r st0).2 + bright kn span t (r + 1) *
           ((basisInner kn span t j r st0).1 r /
             (bright kn span t (r + 1) + bleft kn span t (j - r)))),
       bleft kn span t (j - r) *
         ((basisInner kn span t j r st0).1 r /
           (bright kn span t (r + 1) + bleft kn span t (j - r)))) := rfl

theorem basisInner_spec (kn : ℕ → ℚ) (span : ℕ) (t : ℚ) (j : ℕ)
    (hm : Monotone kn) (hspan : kn span < kn (span + 1))
    (htlo : kn span ≤ t) (hthi : t ≤ kn (span + 1))
    (N0 : ℕ → ℚ) (hN0 : ∀ i, 0 ≤ N0 i) :
    ∀ r, r ≤ j →
      (∀ i, r ≤ i → (basisInner kn span t j r (N0, 0)).1 i = N0 i) ∧
      ((∑ i in Finset.range r, (basisInner kn span t j r (N0, 0)).1 i) +
          (basisInner kn span t j r (N0, 0)).2 = ∑ i in Finset.range r, N0 i) ∧
      (∀ i, 0 ≤ (basisInner kn span t j r (N0, 0)).1 i) ∧
      0 ≤ (basisInner kn span t j r (N0, 0)).2 := by
  intro r
  induction r with
  | zero =>
    intro _
    exact ⟨fun i _ => rfl, by simp [basisInner], hN0, le_of_eq (by simp [basisInner])⟩
  | succ r ih =>
    intro hrj
    obtain ⟨ih1, ih2, ih3, ih4⟩ := ih (by omega)
    have hD : 0 < bright kn span t (r + 1) + bleft kn span t (j - r) :=
      basis_denom_pos kn span t j r hm (by omega) hspan
    have hbr : 0 ≤ bright kn span t (r + 1) :=
      bright_nonneg kn span t (r + 1) hm (by omega) hthi
    have hbl : 0 ≤ bleft kn span t (j - r) :=
      bleft_nonneg kn span t (j - r) hm (by omega) htlo
    have htemp : 0 ≤ (basisInner kn span t j r (N0, 0)).1 r /
        (bright kn span t (r + 1) + bleft kn span t (j - r)) :=
      div_nonneg (ih3 r) (le_of_lt hD)
    rw [basisInner_succ]
    dsimp only
    refine ⟨?_, ?_, ?_, ?_⟩
    · intro i hi
      rw [Function.update_apply, if_neg (by omega : ¬ i = r)]
      exact ih1 i (by omega)
    · rw [Finset.sum_range_succ, Finset.sum_range_succ]
      have hsum : (∑ i in Finset.range r,
          Function.update (basisInner kn span t j r (N0, 0)).1 r
            ((basisInner kn span t j r (N0, 0)).2 + bright kn span t (r + 1) *
              ((basisInner kn span t j r (N0, 0)).1 r /
                (bright kn span t (r + 1) + bleft kn span t (j - r)))) i) =
          ∑ i in Finset.range r, (basisInner kn span t j r (N0, 0)).1 i := by
        refine Finset.sum_congr rfl ?_
        intro i hi
        rw [Function.update_apply, if_neg]
        have := Finset.mem_range.mp hi
        omega
      rw [hsum, Function.update_apply, if_pos rfl]
      have hcancel : (bright kn span t (r + 1) + bleft kn span t (j - r)) *
          ((basisInner kn span t j r (N0, 0)).1 r /
            (bright kn span t (r + 1) + bleft kn span t (j - r))) =
          (basisInner kn span t j r (N0, 0)).1 r :=
        mul_div_cancel₀ _ (ne_of_gt hD)
      have hNr : (basisInner kn span t j r (N0, 0)).1 r = N0 r := ih1 r (le_refl r)
      nlinarith [ih2, hcancel, hNr]
    · intro i
      rw [Function.update_apply]
      by_cases hi : i = r
      · rw [if_pos hi]
        have := mul_nonneg hbr htemp
        linarith
      · rw [if_neg hi]
        exact ih3 i
    · exact mul_nonneg hbl htemp

theorem basisOuter_spec (kn : ℕ → ℚ) (span : ℕ) (t : ℚ)
    (hm : Monotone kn) (hspan : kn span < kn (span + 1))
    (htlo : kn span ≤ t) (hthi : t ≤ kn (span + 1)) :
    ∀ j, (∑ i in Finset.range (j + 1), basisOuter kn span t j i) = 1 ∧
      (∀ i, 0 ≤ basisOuter kn span t j i) ∧
      (∀ i, j < i → basisOuter kn span t j i = 0) := by
  intro j
  induction j with
  | zero =>
    refine ⟨by simp [basisOuter, Function.update_apply], ?_, ?_⟩
    · intro i
      simp only [basisOuter, Function.update_apply]
      split
      · norm_num
      · norm_num
    · intro i hi
      simp only [basisOuter, Function.update_apply, if_neg (by omega : ¬ i = 0)]
  | succ j ih =>
    obtain ⟨ihs, ihn, ihz⟩ := ih
    obtain ⟨h1, h2, h3, h4⟩ :=
      basisInner_spec kn span t (j + 1) hm hspan htlo hthi (basisOuter kn span t j) ihn
        (j + 1) (le_refl _)
    have hstep : basisOuter kn span t (j + 1) =
        Function.update
          (basisInner kn span t (j + 1) (j + 1) (basisOuter kn span t j, 0)).1 (j + 1)
          (basisInner kn span t (j + 1) (j + 1) (basisOuter kn span t j, 0)).2 := rfl
    rw [hstep]
    refine ⟨?_, ?_, ?_⟩
    · rw [Finset.sum_range_succ]
      have hsum : (∑ i in Finset.range (j + 1),
          Function.update
            (basisInner kn span t (j + 1) (j + 1) (basisOuter kn span t j, 0)).1 (j + 1)
            (basisInner kn span t (j + 1) (j + 1) (basisOuter kn span t j, 0)).2 i) =
          ∑ i in Finset.range (j + 1),
            (basisInner kn span t (j + 1) (j + 1) (basisOuter kn span t j, 0)).1 i := by
        refine Finset.sum_congr rfl ?_
        intro i hi
        rw [Function.update_apply, if_neg]
        have := Finset.mem_range.mp hi
        omega
      rw [hsum, Function.update_apply, if_pos rfl, h2, ihs]
    · intro i
      rw [Function.update_apply]
      by_cases hi : i = j + 1
      · rw [if_pos hi]
        exact h4
      · rw [if_neg hi]
        exact h3 i
    · intro i hi
      rw [Function.update_apply, if_neg (by omega : ¬ i = j + 1)]
      rw [h1 i (by omega)]
      exact ihz i (by omega)

/-- Exact partition of unity and non-negativity of the basis values at any
span whose interval contains `t` and is non-degenerate. -/
theorem basis_partition (degree : ℕ) (kn : ℕ → ℚ) (span : ℕ) (t : ℚ)
    (hm : Monotone kn) (hspan : kn span < kn (span + 1))
    (htlo : kn span ≤ t) (hthi : t ≤ kn (span + 1)) :
    (∑ i in Finset.range (degree + 1), basis_functions degree kn span t i) = 1 ∧
    ∀ i, 0 ≤ basis_functions degree kn span t i := by
  have h := basisOuter_spec kn span t hm hspan htlo hthi degree
  exact ⟨h.1, h.2.1⟩

/-- For `t` in the curve domain of a valid clamped knot vector, the span
found by `find_span` has `knots[span] ≤ t ≤ knots[span+1]` with a
non-degenerate interval. -/
theorem span_interval (degree n : ℕ) (kn : ℕ → ℚ) (t : ℚ)
    (hm : Monotone kn) (hdn : degree ≤ n)
    (hstart : kn degree < kn (degree + 1)) (hend : kn n < kn (n + 1))
    (htlo : kn degree ≤ t) (hthi : t ≤ kn (n + 1)) :
    kn (find_span degree kn n t) ≤ t ∧ t ≤ kn (find_span degree kn n t + 1) ∧
    kn (find_span degree kn n t) < kn (find_span degree kn n t + 1) := by
  have hlt : kn degree < kn (n + 1) := lt_of_lt_of_le hstart (hm (by omega))
  obtain ⟨ha, hb, hc, hd, he, hf⟩ := find_span_props degree n kn t hm hlt hstart htlo hthi
  by_cases hcase : t < kn (n + 1)
  · have h1 := hd hcase
    exact ⟨hc, le_of_lt h1, lt_of_le_of_lt hc h1⟩
  · have hteq : t = kn (n + 1) := le_antisymm hthi (not_lt.mp hcase)
    have hspn := hf (le_of_eq hteq.symm)
    rw [hspn]
    exact ⟨hteq ▸ hm (by omega : n ≤ n + 1), le_of_eq hteq, hend⟩

/-- C4: for a valid clamped knot vector (non-decreasing, at least `degree+1`
control points, non-degenerate first and last spans — consequences of the
exact end multiplicity `degree+1`) and any `t` in
`[knots[degree], knots[n+1]]`, the `degree+1` values of
`basis_functions(degree, knots, find_span(degree, knots, n, t), t)` sum to 1
within `1e-12` and each is at least `-1e-15`; in the exact-rational model the
sum is exactly 1 and values are exactly non-negative. -/
theorem c4_basis_partition_unity (degree n : ℕ) (kn : ℕ → ℚ) (t : ℚ)
    (hm : Monotone kn) (hdn : degree ≤ n)
    (hstart : kn degree < kn (degree + 1)) (hend : kn n < kn (n + 1))
    (htlo : kn degree ≤ t) (hthi : t ≤ kn (n + 1)) :
    |(∑ i in Finset.range (degree + 1),
        basis_functions degree kn (find_span degree kn n t) t i) - 1| ≤ 1e-12 ∧
    ∀ i, i < degree + 1 →
      -(1e-15 : ℚ) ≤ basis_functions degree kn (find_span degree kn n t) t i := by
  obtain ⟨h1, h2, h3⟩ := span_interval degree n kn t hm hdn hstart hend htlo hthi
  obtain ⟨hs, hn⟩ := basis_partition degree kn (find_span degree kn n t) t hm h3 h1 h2
  constructor
  · rw [hs]
    norm_num
  · intro i _
    have := hn i
    linarith

/-- Witness for C4 on the clamped knot vector `[0,0,1,1]`, degree 1,
`t = 1/2`. -/
theorem c4_basis_partition_unity_witness :
    |(∑ i in Finset.range 2, basis_functions 1 kw (find_span 1 kw 1 (1/2)) (1/2) i) - 1| ≤ 1e-12 ∧
    -(1e-15 : ℚ) ≤ basis_functions 1 kw (find_span 1 kw 1 (1/2)) (1/2) 0 :=
  have h := c4_basis_partition_unity 1 1 kw (1/2) kw_mono (le_refl 1)
    (by norm_num [kw]) (by norm_num [kw]) (by norm_num [kw]) (by norm_num [kw])
  ⟨h.1, h.2 0 (by norm_num)⟩

-- ---------------------------------------------------------------------------
-- C5: NURBS with equal weights versus the non-rational B-spline
-- ---------------------------------------------------------------------------

theorem Vec3.add_def (a b : Vec3 ℚ) : a + b = ⟨a.x + b.x, a.y + b.y, a.z + b.z⟩ := rfl

theorem Vec3.smul_def (c : ℚ) (v : Vec3 ℚ) : c • v = ⟨c * v.x, c * v.y, c * v.z⟩ := rfl

theorem Vec3.zero_def : (0 : Vec3 ℚ) = ⟨0, 0, 0⟩ := rfl

theorem Vec3.sdiv_def (v : Vec3 ℚ) (c : ℚ) : v.sdiv c = ⟨v.x / c, v.y / c, v.z / c⟩ := rfl

theorem Vec3.zero_x : (0 : Vec3 ℚ).x = 0 := rfl

theorem Vec3.zero_y : (0 : Vec3 ℚ).y = 0 := rfl

theorem Vec3.zero_z : (0 : Vec3 ℚ).z = 0 := rfl

/-- The two accumulation loops agree when all weights equal `c`: the
homogeneous state is `c` times the non-rational state, both for the point and
for the summed weight. -/
theorem homogFold (basis : ℕ → ℚ) (cps : ℕ → Vec3 ℚ) (wts : ℕ → ℚ) (c : ℚ)
    (hw : ∀ i, wts i = c) (span degree : ℕ) :
    ∀ (l : List ℕ) (b : Vec3 ℚ) (w : ℚ),
      l.foldl (fun acc i =>
          (acc.1 + (basis i * wts (span - degree + i)) • cps (span - degree + i),
           acc.2 + basis i * wts (span - degree + i))) (c • b, c * w) =
        (c • l.foldl (fun acc i => acc + basis i • cps (span - degree + i)) b,
         c * l.foldl (fun a i => a + basis i) w) := by
  intro l
  induction l with
  | nil =>
    intro b w
    rfl
  | cons x xs ih =>
    intro b w
    simp only [List.foldl_cons]
    have h1 : (c • b) + (basis x * wts (span - degree + x)) • cps (span - degree + x) =
        c • (b + basis x • cps (span - degree + x)) := by
      rw [hw]
      simp only [Vec3.add_def, Vec3.smul_def, Vec3.mk.injEq]
      refine ⟨by ring, by ring, by ring⟩
    have h2 : c * w + basis x * wts (span - degree + x) = c * (w + basis x) := by
      rw [hw]
      ring
    rw [h1, h2]
    exact ih (b + basis x • cps (span - degree + x)) (w + basis x)

/-- Folding plain additions over `List.range` is the `Finset.range` sum. -/
theorem foldl_add_eq_sum (g : ℕ → ℚ) (c : ℚ) :
    ∀ n, (List.range n).foldl (fun a i => a + g i) c = c + ∑ i in Finset.range n, g i := by
  intro n
  induction n with
  | zero => simp
  | succ k ih =>
    rw [List.range_succ, List.foldl_append, ih]
    simp only [List.foldl_cons, List.foldl_nil]
    rw [Finset.sum_range_succ]
    ring

/-- With all weights equal to `c`, the homogeneous accumulator of
`nurbs_curve_point` is exactly `(c • point, c * (sum of basis values))`. -/
theorem nurbsHomog_const (degree : ℕ) (kn : ℕ → ℚ) (cps : ℕ → Vec3 ℚ) (wts : ℕ → ℚ)
    (n : ℕ) (t c : ℚ) (hw : ∀ i, wts i = c) :
    nurbsCurveHomog degree kn cps wts n t =
      (c • curve_point degree kn cps n t,
       c * ∑ i in Finset.range (degree + 1),
         basis_functions degree kn (find_span degree kn n t) t i) := by
  unfold nurbsCurveHomog curve_point
  have h0 : ((0, 0) : Vec3 ℚ × ℚ) = (c • (0 : Vec3 ℚ), c * 0) := by
    simp [Vec3.smul_def, Vec3.zero_def]
  rw [h0, homogFold (basis_functions degree kn (find_span degree kn n t) t) cps wts c hw
    (find_span degree kn n t) degree (List.range (degree + 1)) 0 0]
  rw [foldl_add_eq_sum]
  simp

/-- C5 (amended): for a NURBS curve over a valid clamped knot vector whose
weights are all equal with common value at least the degenerate threshold
`1e-15`, `nurbs_curve_point` agrees with the non-rational `curve_point` at
every `t` in the domain, within `1e-10` (in the exact model, exactly). -/
theorem c5_nurbs_equals_bspline (degree n : ℕ) (kn : ℕ → ℚ) (cps : ℕ → Vec3 ℚ)
    (wts : ℕ → ℚ) (c t : ℚ)
    (hm : Monotone kn) (hdn : degree ≤ n)
    (hstart : kn degree < kn (degree + 1)) (hend : kn n < kn (n + 1))
    (htlo : kn degree ≤ t) (hthi : t ≤ kn (n + 1))
    (hw : ∀ i, wts i = c) (hc : epsW ≤ c) :
    |(nurbs_curve_point degree kn cps wts n t).x - (curve_point degree kn cps n t).x| ≤ 1e-10 ∧
    |(nurbs_curve_point degree kn cps wts n t).y - (curve_point degree kn cps n t).y| ≤ 1e-10 ∧
    |(nurbs_curve_point degree kn cps wts n t).z - (curve_point degree kn cps n t).z| ≤ 1e-10 := by
  have hsum1 : (∑ i in Finset.range (degree + 1),
      basis_functions degree kn (find_span degree kn n t) t i) = 1 := by
    obtain ⟨h1, h2, h3⟩ := span_interval degree n kn t hm hdn hstart hend htlo hthi
    exact (basis_partition degree kn (find_span degree kn n t) t hm h3 h1 h2).1
  have hhom := nurbsHomog_const degree kn cps wts n t c hw
  rw [hsum1, mul_one] at hhom
  have hcpos : 0 < c := lt_of_lt_of_le (by norm_num [epsW]) hc
  have heq : nurbs_curve_point degree kn cps wts n t = curve_point degree kn cps n t := by
    unfold nurbs_curve_point
    rw [hhom]
    dsimp only
    rw [if_neg (by rw [abs_of_pos hcpos]; exact not_lt.mpr hc)]
    rw [Vec3.smul_def, Vec3.sdiv_def]
    dsimp only
    rw [mul_div_cancel_left₀ _ (ne_of_gt hcpos), mul_div_cancel_left₀ _ (ne_of_gt hcpos),
      mul_div_cancel_left₀ _ (ne_of_gt hcpos)]
  rw [heq]
  norm_num

/-- C5 counterexample: with all weights equal to the strictly positive value
`2⁻⁶⁰` (below the `1e-15` threshold), the NURBS evaluation takes the
degenerate-weight branch and returns the raw numerator, which differs from
the B-spline point by far more than `1e-10`. -/
theorem c5_counterexample :
    (0 : ℚ) < 1 / 2 ^ 60 ∧
    (1e-10 : ℚ) < |(nurbs_curve_point 1 kw cpsLin wtsTiny 1 (1/2)).x -
      (curve_point 1 kw cpsLin 1 (1/2)).x| := by
  constructor
  · norm_num
  · have hhom : nurbsCurveHomog 1 kw cpsLin wtsTiny 1 (1/2) =
        (⟨1 / 2 ^ 61, 0, 0⟩, 1 / 2 ^ 60) := by
      norm_num [nurbsCurveHomog, basis_functions, basisOuter, basisInner, bleft, bright,
        kw, find_span, findSpanLoop, Function.update_apply, cpsLin, wtsTiny,
        List.range_succ, Vec3.add_def, Vec3.smul_def, Vec3.zero_x, Vec3.zero_y,
        Vec3.zero_z, Prod.mk.injEq, Vec3.mk.injEq]
    have hnp : (nurbs_curve_point 1 kw cpsLin wtsTiny 1 (1/2)).x = 1 / 2 ^ 61 := by
      unfold nurbs_curve_point
      rw [hhom]
      dsimp only
      rw [if_pos (by rw [abs_of_pos (by norm_num)]; norm_num [epsW])]
    have hcp : (curve_point 1 kw cpsLin 1 (1/2)).x = 1 / 2 := by
      norm_num [curve_point, basis_functions, basisOuter, basisInner, bleft, bright,
        kw, find_span, findSpanLoop, Function.update_apply, cpsLin,
        List.range_succ, Vec3.add_def, Vec3.smul_def, Vec3.zero_x, Vec3.zero_y, Vec3.zero_z]
    rw [hnp, hcp]
    have habs : |(1 / 2 ^ 61 : ℚ) - 1 / 2| = 1 / 2 - 1 / 2 ^ 61 := by
      rw [abs_of_neg (by norm_num)]
      ring
    rw [habs]
    norm_num

/-- Witness for the amended C5 with all weights 1 on the clamped degree-1
curve. -/
theorem c5_nurbs_equals_bspline_witness :
    |(nurbs_curve_point 1 kw cpsLin (fun _ => 1) 1 (1/2)).x -
      (curve_point 1 kw cpsLin 1 (1/2)).x| ≤ 1e-10 :=
  (c5_nurbs_equals_bspline 1 1 kw cpsLin (fun _ => 1) 1 (1/2) kw_mono (le_refl 1)
    (by norm_num [kw]) (by norm_num [kw]) (by norm_num [kw]) (by norm_num [kw])
    (fun _ => rfl) (by norm_num [epsW])).1

-- ---------------------------------------------------------------------------
-- C8: degenerate-case fallbacks of NURBS evaluation
-- ---------------------------------------------------------------------------

theorem Vec3.sub_def (a b : Vec3 ℚ) : a - b = ⟨a.x - b.x, a.y - b.y, a.z - b.z⟩ := rfl

/-- At degree 0 the derivative scale factor is the degree itself, so every
first derivative is 0. -/
theorem dnVal_degree_zero (kn : ℕ → ℚ) (span : ℕ) (t : ℚ) (r : ℕ) :
    dnVal kn span t 0 r = 0 := by
  simp [dnVal]

/-- C8: evaluation never raises an error (all evaluators are total
functions), and the documented degenerate fallbacks hold: when the summed
weight magnitude is below `1e-15`, curve and surface point evaluation return
the raw unnormalised homogeneous numerator, and `nurbs_surface_normal`
returns unit Z; `nurbs_surface_normal` also returns unit Z whenever the
cross product's length is below `1e-15`. -/
theorem c8_degenerate_fallbacks :
    (∀ (degree : ℕ) (kn : ℕ → ℚ) (cps : ℕ → Vec3 ℚ) (wts : ℕ → ℚ) (n : ℕ) (t : ℚ),
      |(nurbsCurveHomog degree kn cps wts n t).2| < epsW →
        nurbs_curve_point degree kn cps wts n t =
          (nurbsCurveHomog degree kn cps wts n t).1) ∧
    (∀ (pu pv : ℕ) (knu knv : ℕ → ℚ) (cps : ℕ → ℕ → Vec3 ℚ) (wts : ℕ → ℕ → ℚ)
        (nu nv : ℕ) (u v : ℚ),
      |(nurbsSurfHomog pu pv knu knv cps wts nu nv u v).2| < epsW →
        nurbs_surface_point pu pv knu knv cps wts nu nv u v =
          (nurbsSurfHomog pu pv knu knv cps wts nu nv u v).1) ∧
    (∀ (pu pv : ℕ) (knu knv : ℕ → ℚ) (cps : ℕ → ℕ → Vec3 ℚ) (wts : ℕ → ℕ → ℚ)
        (nu nv : ℕ) (u v : ℚ),
      |(nurbsSurfDerivState pu pv knu knv cps wts nu nv u v).2.2.2.1| < epsW →
        nurbs_surface_normal pu pv knu knv cps wts nu nv u v = vecZR) ∧
    (∀ (pu pv : ℕ) (knu knv : ℕ → ℚ) (cps : ℕ → ℕ → Vec3 ℚ) (wts : ℕ → ℕ → ℚ)
        (nu nv : ℕ) (u v : ℚ),
      Real.sqrt (((nurbsSurfCross pu pv knu knv cps wts nu nv u v).normSq : ℚ) : ℝ)
          < 1e-15 →
        nurbs_surface_normal pu pv knu knv cps wts nu nv u v = vecZR) := by
  refine ⟨?_, ?_, ?_, ?_⟩
  · intro degree kn cps wts n t h
    simp only [nurbs_curve_point]
    rw [if_pos h]
  · intro pu pv knu knv cps wts nu nv u v h
    simp only [nurbs_surface_point]
    rw [if_pos h]
  · intro pu pv knu knv cps wts nu nv u v h
    rcases hst : nurbsSurfDerivState pu pv knu knv cps wts nu nv u v with
      ⟨a, dau, dav, w, dwu, dwv⟩
    rw [hst] at h
    dsimp only at h
    simp only [nurbs_surface_normal, hst]
    rw [if_pos h]
  · intro pu pv knu knv cps wts nu nv u v h
    rcases hst : nurbsSurfDerivState pu pv knu knv cps wts nu nv u v with
      ⟨a, dau, dav, w, dwu, dwv⟩
    simp only [nurbs_surface_normal, hst]
    by_cases hw : |w| < epsW
    · rw [if_pos hw]
    · rw [if_neg hw, if_pos h]

/-- Witness for C8 with degree-0 inputs: zero weights trigger the
numerator/unit-Z weight fallbacks; constant weight 1 on a 1×1 grid makes the
partial derivatives vanish and triggers the cross-product fallback. -/
theorem c8_degenerate_fallbacks_witness :
    nurbs_curve_point 0 k01 cpsLin (fun _ => 0) 0 0 =
      (nurbsCurveHomog 0 k01 cpsLin (fun _ => 0) 0 0).1 ∧
    nurbs_surface_point 0 0 k01 k01 cp2 (fun _ _ => 0) 0 0 0 0 =
      (nurbsSurfHomog 0 0 k01 k01 cp2 (fun _ _ => 0) 0 0 0 0).1 ∧
    nurbs_surface_normal 0 0 k01 k01 cp2 (fun _ _ => 0) 0 0 0 0 = vecZR ∧
    nurbs_surface_normal 0 0 k01 k01 cp2 (fun _ _ => 1) 0 0 0 0 = vecZR := by
  obtain ⟨h1, h2, h3, h4⟩ := c8_degenerate_fallbacks
  refine ⟨h1 0 k01 cpsLin (fun _ => 0) 0 0 ?_, h2 0 0 k01 k01 cp2 (fun _ _ => 0) 0 0 0 0 ?_,
    h3 0 0 k01 k01 cp2 (fun _ _ => 0) 0 0 0 0 ?_, h4 0 0 k01 k01 cp2 (fun _ _ => 1) 0 0 0 0 ?_⟩
  · have hv : (nurbsCurveHomog 0 k01 cpsLin (fun _ => 0) 0 0).2 = 0 := by
      norm_num [nurbsCurveHomog, basis_functions, basisOuter, Function.update_apply,
        find_span, findSpanLoop, k01, List.range_succ]
    rw [hv]
    norm_num [epsW]
  · have hv : (nurbsSurfHomog 0 0 k01 k01 cp2 (fun _ _ => 0) 0 0 0 0).2 = 0 := by
      norm_num [nurbsSurfHomog, basis_functions, basisOuter, Function.update_apply,
        find_span, findSpanLoop, k01, List.range_succ]
    rw [hv]
    norm_num [epsW]
  · have hv : (nurbsSurfDerivState 0 0 k01 k01 cp2 (fun _ _ => 0) 0 0 0 0).2.2.2.1 = 0 := by
      norm_num [nurbsSurfDerivState, basis_functions_derivs, dnVal_degree_zero,
        nduOuter, update2, find_span, findSpanLoop, k01, List.range_succ]
    rw [hv]
    norm_num [epsW]
  · have hv : (nurbsSurfCross 0 0 k01 k01 cp2 (fun _ _ => 1) 0 0 0 0).normSq = 0 := by
      norm_num [nurbsSurfCross, nurbsSurfDerivState, basis_functions_derivs,
        dnVal_degree_zero, nduOuter, update2, find_span, findSpanLoop, k01,
        List.range_succ, Vec3.cross, Vec3.normSq, Vec3.sdiv_def, Vec3.sub_def,
        Vec3.smul_def, Vec3.add_def, Vec3.zero_x, Vec3.zero_y, Vec3.zero_z]
    rw [hv]
    norm_num [Real.sqrt_zero]

-- ---------------------------------------------------------------------------
-- C9: the circle's reference axis
-- ---------------------------------------------------------------------------

theorem Vec3.zero_xR : (0 : Vec3 ℝ).x = 0 := rfl

theorem Vec3.zero_yR : (0 : Vec3 ℝ).y = 0 := rfl

theorem Vec3.zero_zR : (0 : Vec3 ℝ).z = 0 := rfl

/-- C9 (amended): for every circle with unit normal, the reference axis used
by `local_frame` is the world X axis exactly when `|normal.x| < 0.9` and the
world Y axis otherwise (not the axis with the smaller absolute dot product
against the normal), and in both cases the cross product with the normal is
non-degenerate. -/
theorem c9_circle_ref_axis (c : CstCurve.Circle) (hn : c.normal.normSq = 1) :
    (|c.normal.x| < 9 / 10 →
      CstCurve.circleRefVec c.normal = ⟨1, 0, 0⟩ ∧
      Vec3.cross c.normal (CstCurve.circleRefVec c.normal) ≠ 0) ∧
    (9 / 10 ≤ |c.normal.x| →
      CstCurve.circleRefVec c.normal = ⟨0, 1, 0⟩ ∧
      Vec3.cross c.normal (CstCurve.circleRefVec c.normal) ≠ 0) := by
  rcases hv : c.normal with ⟨x, y, z⟩
  rw [hv] at hn
  unfold Vec3.normSq at hn
  dsimp only at hn
  constructor
  · intro hx
    dsimp only at hx
    have href : CstCurve.circleRefVec ⟨x, y, z⟩ = ⟨1, 0, 0⟩ := by
      unfold CstCurve.circleRefVec
      rw [if_pos hx]
    rw [href]
    refine ⟨rfl, ?_⟩
    intro heq
    have hy := congrArg Vec3.y heq
    have hz := congrArg Vec3.z heq
    simp only [Vec3.cross, Vec3.zero_yR, Vec3.zero_zR] at hy hz
    have hy0 : y = 0 := by linarith [hz]
    have hz0 : z = 0 := by linarith [hy]
    rw [hy0, hz0] at hn
    obtain ⟨hx1, hx2⟩ := abs_lt.mp hx
    nlinarith
  · intro hx
    dsimp only at hx
    have href : CstCurve.circleRefVec ⟨x, y, z⟩ = ⟨0, 1, 0⟩ := by
      unfold CstCurve.circleRefVec
      rw [if_neg (not_lt.mpr hx)]
    rw [href]
    refine ⟨rfl, ?_⟩
    intro heq
    have hz := congrArg Vec3.z heq
    simp only [Vec3.cross, Vec3.zero_zR] at hz
    have hx0 : x = 0 := by linarith [hz]
    rw [hx0] at hx
    simp at hx
    linarith [hx]

/-- C9 counterexample: for the unit normal `(3/5, 0, 4/5)` the code chooses
the world X axis (`|0.6| < 0.9`), although the world Y axis has the strictly
smaller absolute dot product with the normal — refuting the claim that the
less-parallel of X and Y is chosen. -/
theorem c9_counterexample :
    CstCurve.cxCircle.normal.normSq = 1 ∧
    CstCurve.circleRefVec CstCurve.cxCircle.normal = ⟨1, 0, 0⟩ ∧
    |Vec3.dot CstCurve.cxCircle.normal ⟨0, 1, 0⟩| <
      |Vec3.dot CstCurve.cxCircle.normal ⟨1, 0, 0⟩| := by
  refine ⟨?_, ?_, ?_⟩
  · norm_num [CstCurve.cxCircle, Vec3.normSq]
  · unfold CstCurve.cxCircle CstCurve.circleRefVec
    rw [if_pos]
    rw [show ((⟨⟨0,0,0⟩, ⟨3/5, 0, 4/5⟩, 1⟩ : CstCurve.Circle).normal.x) = (3/5 : ℝ) from rfl]
    rw [abs_of_pos (by norm_num)]
    norm_num
  · have h1 : Vec3.dot CstCurve.cxCircle.normal ⟨0, 1, 0⟩ = 0 := by
      norm_num [CstCurve.cxCircle, Vec3.dot]
    have h2 : Vec3.dot CstCurve.cxCircle.normal ⟨1, 0, 0⟩ = 3/5 := by
      norm_num [CstCurve.cxCircle, Vec3.dot]
    rw [h1, h2, abs_zero, abs_of_pos (by norm_num)]
    norm_num

/-- Witness for the amended C9 at the counterexample circle. -/
theorem c9_circle_ref_axis_witness :
    CstCurve.circleRefVec CstCurve.cxCircle.normal = ⟨1, 0, 0⟩ ∧
    Vec3.cross CstCurve.cxCircle.normal (CstCurve.circleRefVec CstCurve.cxCircle.normal) ≠ 0 :=
  (c9_circle_ref_axis CstCurve.cxCircle (by norm_num [CstCurve.cxCircle, Vec3.normSq])).1
    (by rw [show (CstCurve.cxCircle.normal.x) = (3/5 : ℝ) from rfl,
          abs_of_pos (by norm_num)]
        norm_num)
